import Mathlib

/-!
Verification development for the observation-proxy library (jsheaven/observed).

The TypeScript source (src/index.ts) is shallowly embedded as follows.

JavaScript values are modelled by an inductive `Value`: primitives
(`undef`, `vbool`, `num`, `str`, `vnull`), references to plain objects
(`ref a`, an address into an explicit heap), references to interception
proxies (`prox p`, an index into a proxy table) and function values
(`fn c`, a callback identifier; callback identity, which JavaScript
compares with `!==`, becomes equality of identifiers).

A plain object (`Obj`) carries its enumerable string-keyed fields in
insertion order, plus the two symbol-keyed invisible slots the library
installs with `defineProp`: the `observedSymbol` marker (a `Bool`) and
the `observedCallbacksSymbol` registry (`Option (List Reg)`, `none`
meaning the slot is absent).  Reads and `Object.defineProperty` calls on
a proxy for these symbol slots forward to the proxy target, so the
model resolves a proxy to its target address for the slot operations.

Callback behaviour is supplied by an environment `CbEnv` mapping a
callback identifier to a pure function of the arguments
(prop, value, valueBefore, receiver) returning the replacement value
(a callback body that returns nothing returns `Value.undef`).  Every
hook invocation is additionally recorded as an `Event` in a trace, so
ordering claims are statements about traces.

The mutually recursive group `observed` / `mayObserve` / `proxySet` /
`wrapKeysRaw` / `wrapKeysProxy` is indexed by fuel because the source
recursion is over an arbitrary heap graph (on cyclic data the source
recurses forever; the model returns `none` when fuel runs out).
-/

namespace Observed

/-- Property keys of the enumerable, string-keyed fields. -/
abbrev Key := String

/-- Callback phase, as in the source union type Phase with the two
alternatives before and after. -/
inductive Phase where
  | before
  | after
deriving DecidableEq, Repr

/-- JavaScript values, as far as the library distinguishes them. -/
inductive Value where
  | undef
  | vnull
  | vbool (b : Bool)
  | num (n : Int)
  | str (s : String)
  | ref (a : Nat)
  | prox (p : Nat)
  | fn (c : Nat)
deriving DecidableEq, Repr

/-- Registry entry, as in the source `CallbackRegistration { cb, phase }`. -/
structure Reg where
  cb : Nat
  phase : Phase
deriving DecidableEq, Repr

/-- Effective options, as in the source `ObserveOptions` after the merge
with `defaultOptions` (every field present; the optional hook fields hold
a callback identifier when the corresponding hook is configured). -/
structure ObserveOptions where
  deep : Bool
  onBeforeSet : Option Nat
  onSet : Option Nat
  onGet : Option Nat
deriving DecidableEq, Repr

/-- Source `defaultOptions`: deep observation on, no global hooks. -/
def defaultOptions : ObserveOptions :=
  { deep := true, onBeforeSet := none, onSet := none, onGet := none }

/-- Options bundle as supplied by a caller, with every field optional;
`mergeOptions` performs the source spread `{...defaultOptions, ...options}`. -/
structure OptionsArg where
  deep : Option Bool
  onBeforeSet : Option Nat
  onSet : Option Nat
  onGet : Option Nat
deriving DecidableEq, Repr

/-- Merge of caller options over `defaultOptions`, key by key. -/
def mergeOptions (o : OptionsArg) : ObserveOptions :=
  { deep := o.deep.getD defaultOptions.deep
    onBeforeSet := o.onBeforeSet
    onSet := o.onSet
    onGet := o.onGet }

/-- Plain object: enumerable fields in insertion order plus the two
invisible symbol slots installed by `defineProp`. -/
structure Obj where
  fields : List (Key × Value)
  observedFlag : Bool
  callbacks : Option (List Reg)
deriving DecidableEq, Repr

/-- Data captured by the closure of one `new Proxy(object, ...)` call:
the target address and the effective options at creation time. -/
structure ProxyData where
  target : Nat
  opts : ObserveOptions
deriving DecidableEq, Repr

/-- Program state: the heap of plain objects (address = list index) and
the table of proxies created so far (proxy id = list index). -/
structure State where
  objs : List Obj
  proxies : List ProxyData
deriving DecidableEq, Repr

/-- Behaviour of callbacks: identifier, then (prop, value, valueBefore,
receiver), returning the replacement value. -/
abbrev CbEnv := Nat → Key → Value → Value → Value → Value

/-- Trace events recording each hook invocation and the commit. -/
inductive Event where
  | globalBefore (cb : Nat) (k : Key) (v vb : Value)
  | beforeReg (cb : Nat) (k : Key) (v vb : Value)
  | commitEv (k : Key) (v : Value)
  | afterReg (cb : Nat) (k : Key) (v vb : Value)
  | globalAfter (cb : Nat) (k : Key) (v vb : Value)
  | getHook (cb : Nat) (k : Key) (v : Value)
deriving DecidableEq, Repr

/-- Heap lookup. -/
def getObj (st : State) (a : Nat) : Option Obj := st.objs[a]?

/-- Heap update at an existing address. -/
def setObj (st : State) (a : Nat) (o : Obj) : State :=
  { st with objs := st.objs.set a o }

/-- Field lookup; a missing key reads as `undefined`, as in JavaScript. -/
def getField (fs : List (Key × Value)) (k : Key) : Value :=
  match fs with
  | [] => Value.undef
  | (k', v') :: rest => if k' = k then v' else getField rest k

/-- Field store preserving JavaScript key insertion order: an existing
key keeps its position, a new key is appended. -/
def setField (fs : List (Key × Value)) (k : Key) (v : Value) : List (Key × Value) :=
  match fs with
  | [] => [(k, v)]
  | (k', v') :: rest => if k' = k then (k, v) :: rest else (k', v') :: setField rest k v

/-- Resolve a value to the address of the plain object behind it: a raw
reference directly, a proxy via its target (symbol-slot reads and
defineProperty on a proxy forward to the target). -/
def resolveAddr (st : State) : Value → Option Nat
  | Value.ref a => some a
  | Value.prox p => (st.proxies[p]?).map ProxyData.target
  | _ => none

/-- Source `isObserved`: truthiness of the `observedSymbol` slot (read
through the proxy when the argument is a proxy). -/
def isObserved (st : State) (v : Value) : Bool :=
  match resolveAddr st v with
  | some a =>
    match getObj st a with
    | some o => o.observedFlag
    | none => false
  | none => false

/-- Source `getObservers`: the `observedCallbacksSymbol` slot, `none`
when the slot is absent (JavaScript `undefined`). -/
def getObservers (st : State) (v : Value) : Option (List Reg) :=
  match resolveAddr st v with
  | some a =>
    match getObj st a with
    | some o => o.callbacks
    | none => none
  | none => none

/-- Source `initCallbackArray`: installs an empty registry when the
`observedCallbacksSymbol` slot is absent, otherwise leaves it alone. -/
def initCallbackArray (st : State) (a : Nat) : State :=
  match getObj st a with
  | none => st
  | some o =>
    match o.callbacks with
    | some _ => st
    | none => setObj st a { o with callbacks := some [] }

/-- Marking step of `observed`: `defineProp(object, observedSymbol, true)`. -/
def markObserved (st : State) (a : Nat) : State :=
  match getObj st a with
  | none => st
  | some o => setObj st a { o with observedFlag := true }

/-- Commit step of the set trap: `Reflect.set(target, prop, value,
receiver)`, which for a data property stores the value on the target. -/
def reflectSet (st : State) (a : Nat) (k : Key) (v : Value) : State :=
  match getObj st a with
  | none => st
  | some o => setObj st a { o with fields := setField o.fields k v }

/-- Value stored on the object at address `a` under key `k`. -/
def storedAt (st : State) (a : Nat) (k : Key) : Value :=
  match getObj st a with
  | some o => getField o.fields k
  | none => Value.undef

/-- JavaScript typeof test for callability of a callback argument. -/
def isFn : Value → Bool
  | Value.fn _ => true
  | _ => false

/-- JavaScript test of `mayObserve`: typeof value is object and value
is not null (true for plain object references and for proxies). -/
def isComposite : Value → Bool
  | Value.ref _ => true
  | Value.prox _ => true
  | _ => false

/-- Source `onSet`: throws when the callback is not callable, otherwise
ensures the registry slot exists and appends `{cb, phase}` at the end.
A thrown error is modelled as `Except.error` with the message; on error
no state is produced, so the registry is untouched. -/
def onSet (st : State) (object : Value) (callback : Value) (phase : Phase) :
    Except String State :=
  match callback with
  | Value.fn c =>
    match resolveAddr st object with
    | none => Except.ok st
    | some a =>
      let st1 := initCallbackArray st a
      match getObj st1 a with
      | none => Except.ok st1
      | some o =>
        Except.ok (setObj st1 a
          { o with callbacks := some (o.callbacks.getD [] ++ [⟨c, phase⟩]) })
  | _ => Except.error "callback must be a function"

/-- Call of `onSet` without the phase argument: the source declares the
parameter default for phase, which is the after phase. -/
def onSetDefaultPhase (st : State) (object : Value) (callback : Value) :
    Except String State :=
  onSet st object callback Phase.after

/-- Source `offSet`: with no callback, unconditionally installs an empty
registry; with a non-callable callback, throws the invalid-argument
error; with a callable callback but no registry array on the node,
throws the not-registered error; otherwise filters out every
registration whose callback identity matches. -/
def offSet (st : State) (object : Value) (callback : Option Value) :
    Except String State :=
  match callback with
  | none =>
    match resolveAddr st object with
    | none => Except.ok st
    | some a =>
      match getObj st a with
      | none => Except.ok st
      | some o => Except.ok (setObj st a { o with callbacks := some [] })
  | some c =>
    match c with
    | Value.fn cbId =>
      match resolveAddr st object with
      | none => Except.error "callback is not registered"
      | some a =>
        match getObj st a with
        | none => Except.error "callback is not registered"
        | some o =>
          match o.callbacks with
          | none => Except.error "callback is not registered"
          | some regs =>
            Except.ok (setObj st a
              { o with callbacks := some (regs.filter (fun r => r.cb ≠ cbId)) })
    | _ => Except.error "callback must be a function"

/-- Before-phase loop of the set trap: walks the registry in insertion
order, and for every registration in before phase replaces the pending
value with the callback return value; yields the final value and the
trace of before-phase invocations (each event records the arguments the
callback received). -/
def runBefore (env : CbEnv) (regs : List Reg) (k : Key) (v vb recv : Value) :
    Value × List Event :=
  match regs with
  | [] => (v, [])
  | r :: rest =>
    if r.phase = Phase.before then
      let res := runBefore env rest k (env r.cb k v vb recv) vb recv
      (res.1, Event.beforeReg r.cb k v vb :: res.2)
    else
      runBefore env rest k v vb recv

/-- After-phase loop of the set trap: walks the registry in insertion
order and invokes every registration in after phase; return values are
not used, so only the trace remains. -/
def runAfter (env : CbEnv) (regs : List Reg) (k : Key) (v vb recv : Value) :
    List Event :=
  match regs with
  | [] => []
  | r :: rest =>
    if r.phase = Phase.after then
      Event.afterReg r.cb k v vb :: runAfter env rest k v vb recv
    else
      runAfter env rest k v vb recv

/-- Get trap of the proxy for a string-keyed property: retrieves the
value from the target with `Reflect.get`, invokes the global read hook
when configured (the hook type returns void, so no return value is
modelled) and returns the retrieved value. -/
def proxyGet (st : State) (p : Nat) (k : Key) : Option (Value × List Event) :=
  match st.proxies[p]? with
  | none => none
  | some pd =>
    match getObj st pd.target with
    | none => none
    | some o =>
      let value := getField o.fields k
      let evs :=
        match pd.opts.onGet with
        | some cb => [Event.getHook cb k value]
        | none => []
      some (value, evs)

mutual

/-- Source `observed` on a value (`ref` for a plain object, `prox` for a
proxy), taking the already-merged options (re-merging a complete options
record with the defaults is the identity, so internal recursive calls
pass the record directly; external calls go through `mergeOptions`).
Ensures the registry slot exists, rewrites every enumerable key through
`mayObserve` (raw field stores on a plain object, trapped reads and
writes on a proxy), then either returns the argument unchanged when it
is already marked observed, or creates a proxy over it and marks it.
A proxy whose target is not marked would require a proxy over a proxy,
which the model does not represent, and cyclic heaps exhaust the fuel;
both give `none`. -/
def observed (fuel : Nat) (env : CbEnv) (st : State) (object : Value)
    (opts : ObserveOptions) : Option (Value × State × List Event) :=
  match fuel with
  | 0 => none
  | Nat.succ f =>
    match object with
    | Value.ref a =>
      match getObj st a with
      | none => none
      | some o0 =>
        let st1 := initCallbackArray st a
        let keys := o0.fields.map Prod.fst
        match wrapKeysRaw f env st1 a keys opts with
        | none => none
        | some (st2, evs) =>
          if isObserved st2 (Value.ref a) then
            some (Value.ref a, st2, evs)
          else
            let pid := st2.proxies.length
            let st3 := { st2 with proxies := st2.proxies ++ [⟨a, opts⟩] }
            some (Value.prox pid, markObserved st3 a, evs)
    | Value.prox p =>
      match st.proxies[p]? with
      | none => none
      | some pd =>
        match getObj st pd.target with
        | none => none
        | some o0 =>
          let st1 := initCallbackArray st pd.target
          let keys := o0.fields.map Prod.fst
          match wrapKeysProxy f env st1 p keys opts with
          | none => none
          | some (st2, evs) =>
            if isObserved st2 (Value.prox p) then
              some (Value.prox p, st2, evs)
            else
              none
    | _ => none

/-- Source `mayObserve`: wraps the value via `observed` with the deep
flag forced off when it is a non-null object, otherwise passes it
through unchanged. -/
def mayObserve (fuel : Nat) (env : CbEnv) (st : State) (v : Value)
    (opts : ObserveOptions) : Option (Value × State × List Event) :=
  match v with
  | Value.ref a =>
    match fuel with
    | 0 => none
    | Nat.succ f => observed f env st (Value.ref a) { opts with deep := false }
  | Value.prox p =>
    match fuel with
    | 0 => none
    | Nat.succ f => observed f env st (Value.prox p) { opts with deep := false }
  | w => some (w, st, [])

/-- Set trap of the proxy `p` for key `k` and incoming value `v`:
captures the old value from the target, pipes the value through
`mayObserve`, the global before hook, and the before-phase
registrations, commits with `Reflect.set`, then runs the after-phase
registrations and the global after hook; always reports `true`. -/
def proxySet (fuel : Nat) (env : CbEnv) (st : State) (p : Nat) (k : Key)
    (v : Value) : Option (State × List Event × Bool) :=
  match fuel with
  | 0 => none
  | Nat.succ f =>
    match st.proxies[p]? with
    | none => none
    | some pd =>
      match getObj st pd.target with
      | none => none
      | some o0 =>
        let vb := getField o0.fields k
        match mayObserve f env st v pd.opts with
        | none => none
        | some (v1, st1, evs1) =>
          let gb :=
            match pd.opts.onBeforeSet with
            | some cb => (env cb k v1 vb (Value.prox p), [Event.globalBefore cb k v1 vb])
            | none => (v1, [])
          let observers :=
            match getObj st1 pd.target with
            | some o1 => o1.callbacks.getD []
            | none => []
          let bres := runBefore env observers k gb.1 vb (Value.prox p)
          let st2 := reflectSet st1 pd.target k bres.1
          let aevs := runAfter env observers k bres.1 vb (Value.prox p)
          let ga :=
            match pd.opts.onSet with
            | some cb => [Event.globalAfter cb k bres.1 vb]
            | none => []
          some (st2, evs1 ++ gb.2 ++ bres.2 ++ [Event.commitEv k bres.1] ++ aevs ++ ga, true)

/-- Key loop of `observed` on a plain object: for each key of the
snapshot taken at entry, rewrites the current field value through
`mayObserve` and stores the result back with a raw (untrapped) field
store. -/
def wrapKeysRaw (fuel : Nat) (env : CbEnv) (st : State) (a : Nat)
    (keys : List Key) (opts : ObserveOptions) : Option (State × List Event) :=
  match fuel with
  | 0 => none
  | Nat.succ f =>
    match keys with
    | [] => some (st, [])
    | k :: rest =>
      match getObj st a with
      | none => none
      | some o =>
        match mayObserve f env st (getField o.fields k) opts with
        | none => none
        | some (w, st1, evs1) =>
          match getObj st1 a with
          | none => none
          | some o1 =>
            let st2 := setObj st1 a { o1 with fields := setField o1.fields k w }
            match wrapKeysRaw f env st2 a rest opts with
            | none => none
            | some (st3, evs2) => some (st3, evs1 ++ evs2)

/-- Key loop of `observed` on a proxy: each key of the snapshot is read
through the get trap, rewritten through `mayObserve` and assigned back
through the set trap, firing the full dispatch sequence. -/
def wrapKeysProxy (fuel : Nat) (env : CbEnv) (st : State) (p : Nat)
    (keys : List Key) (opts : ObserveOptions) : Option (State × List Event) :=
  match fuel with
  | 0 => none
  | Nat.succ f =>
    match keys with
    | [] => some (st, [])
    | k :: rest =>
      match proxyGet st p k with
      | none => none
      | some (v, evsG) =>
        match mayObserve f env st v opts with
        | none => none
        | some (w, st1, evs1) =>
          match proxySet f env st1 p k w with
          | none => none
          | some (st2, evs2, _ok) =>
            match wrapKeysProxy f env st2 p rest opts with
            | none => none
            | some (st3, evs3) => some (st3, evsG ++ evs1 ++ evs2 ++ evs3)

end

/-! ### Basic state lemmas -/

/-- Marker flag of the plain object at address `b`. -/
def flagAt (st : State) (b : Nat) : Bool :=
  match getObj st b with
  | some o => o.observedFlag
  | none => false

theorem isObserved_ref (st : State) (b : Nat) :
    isObserved st (Value.ref b) = flagAt st b := rfl

theorem length_setObj (st : State) (a : Nat) (o : Obj) :
    (setObj st a o).objs.length = st.objs.length := by
  simp [setObj]

theorem getObj_setObj (st : State) (a : Nat) (o : Obj) (b : Nat) :
    getObj (setObj st a o) b =
      if a = b then (if a < st.objs.length then some o else none) else getObj st b := by
  simp [getObj, setObj, List.getElem?_set]

theorem getObj_lt {st : State} {a : Nat} {o : Obj} (h : getObj st a = some o) :
    a < st.objs.length := by
  simp only [getObj] at h
  exact (List.getElem?_eq_some_iff.mp h).1

theorem getObj_setObj_self {st : State} {a : Nat} {o : Obj} (o' : Obj)
    (h : getObj st a = some o) :
    getObj (setObj st a o') a = some o' := by
  rw [getObj_setObj, if_pos rfl, if_pos (getObj_lt h)]

/-- State evolution invariant of the recursive wrap functions: the heap
keeps its shape and marker flags are never cleared. -/
def StatePres (st st' : State) : Prop :=
  st'.objs.length = st.objs.length ∧ ∀ b, flagAt st b = true → flagAt st' b = true

theorem statePres_rfl (st : State) : StatePres st st := ⟨rfl, fun _ h => h⟩

theorem statePres_trans {s1 s2 s3 : State}
    (h1 : StatePres s1 s2) (h2 : StatePres s2 s3) : StatePres s1 s3 :=
  ⟨h2.1.trans h1.1, fun b hb => h2.2 b (h1.2 b hb)⟩

theorem statePres_setObj {st : State} {a : Nat} {o : Obj} (o' : Obj)
    (h : getObj st a = some o) (hf : o.observedFlag = true → o'.observedFlag = true) :
    StatePres st (setObj st a o') := by
  refine ⟨length_setObj st a o', fun b hb => ?_⟩
  unfold flagAt at hb ⊢
  rw [getObj_setObj]
  by_cases hab : a = b
  · subst hab
    rw [if_pos rfl, if_pos (getObj_lt h)]
    rw [h] at hb
    exact hf hb
  · rw [if_neg hab]
    exact hb

theorem statePres_initCallbackArray (st : State) (a : Nat) :
    StatePres st (initCallbackArray st a) := by
  unfold initCallbackArray
  split
  · exact statePres_rfl st
  next o heq =>
    split
    · exact statePres_rfl st
    · exact statePres_setObj _ heq (fun h => h)

theorem statePres_markObserved (st : State) (a : Nat) :
    StatePres st (markObserved st a) := by
  unfold markObserved
  split
  · exact statePres_rfl st
  next o heq => exact statePres_setObj _ heq (fun _ => rfl)

theorem statePres_reflectSet (st : State) (a : Nat) (k : Key) (v : Value) :
    StatePres st (reflectSet st a k v) := by
  unfold reflectSet
  split
  · exact statePres_rfl st
  next o heq => exact statePres_setObj _ heq (fun h => h)

theorem statePres_setProxies (st : State) (ps : List ProxyData) :
    StatePres st { st with proxies := ps } := ⟨rfl, fun _ h => h⟩

/-- Non-composite values pass through `mayObserve` unchanged, with no
state change and no events (any fuel). -/
theorem mayObserve_prim {v : Value} (f : Nat) (env : CbEnv) (st : State)
    (opts : ObserveOptions) (h : isComposite v = false) :
    mayObserve f env st v opts = some (v, st, []) := by
  cases v <;> simp_all [isComposite, mayObserve]

/-- Every function of the recursive wrap group preserves the heap shape
and never clears a marker flag. -/
theorem statePres_run : ∀ f : Nat,
    (∀ env st v opts w st' evs,
      observed f env st v opts = some (w, st', evs) → StatePres st st') ∧
    (∀ env st v opts w st' evs,
      mayObserve f env st v opts = some (w, st', evs) → StatePres st st') ∧
    (∀ env st p k v st' evs b,
      proxySet f env st p k v = some (st', evs, b) → StatePres st st') ∧
    (∀ env st a keys opts st' evs,
      wrapKeysRaw f env st a keys opts = some (st', evs) → StatePres st st') ∧
    (∀ env st p keys opts st' evs,
      wrapKeysProxy f env st p keys opts = some (st', evs) → StatePres st st') := by
  intro f
  induction f with
  | zero =>
    refine ⟨?_, ?_, ?_, ?_, ?_⟩
    · intro env st v opts w st' evs h
      simp [observed] at h
    · intro env st v opts w st' evs h
      cases v <;> simp [mayObserve] at h <;>
        (obtain ⟨-, h2, -⟩ := h; subst h2; exact statePres_rfl st)
    · intro env st p k v st' evs b h
      simp [proxySet] at h
    · intro env st a keys opts st' evs h
      simp [wrapKeysRaw] at h
    · intro env st p keys opts st' evs h
      simp [wrapKeysProxy] at h
  | succ f ih =>
    obtain ⟨ihObs, ihMay, ihSet, ihRaw, ihProx⟩ := ih
    refine ⟨?_, ?_, ?_, ?_, ?_⟩
    · -- observed
      intro env st v opts w st' evs h
      cases v
      case ref a =>
        rw [observed] at h
        split at h
        · exact absurd h (by simp)
        case _ o0 heq =>
          simp only [] at h
          split at h
          · exact absurd h (by simp)
          case _ st2 evs2 heqW =>
            have base := statePres_initCallbackArray st a
            have step := ihRaw _ _ _ _ _ _ _ heqW
            split at h
            · simp only [Option.some.injEq, Prod.mk.injEq] at h
              obtain ⟨-, h2, -⟩ := h
              subst h2
              exact statePres_trans base step
            · simp only [Option.some.injEq, Prod.mk.injEq] at h
              obtain ⟨-, h2, -⟩ := h
              subst h2
              exact statePres_trans base (statePres_trans step
                (statePres_trans (statePres_setProxies st2 _)
                  (statePres_markObserved _ a)))
      case prox p =>
        rw [observed] at h
        split at h
        · exact absurd h (by simp)
        case _ pd heqP =>
          split at h
          · exact absurd h (by simp)
          case _ o0 heq =>
            simp only [] at h
            split at h
            · exact absurd h (by simp)
            case _ st2 evs2 heqW =>
              have base := statePres_initCallbackArray st pd.target
              have step := ihProx _ _ _ _ _ _ _ heqW
              split at h
              · simp only [Option.some.injEq, Prod.mk.injEq] at h
                obtain ⟨-, h2, -⟩ := h
                subst h2
                exact statePres_trans base step
              · exact absurd h (by simp)
      all_goals simp [observed] at h
    · -- mayObserve
      intro env st v opts w st' evs h
      cases v <;> simp only [mayObserve] at h
      case ref a => exact ihObs _ _ _ _ _ _ _ h
      case prox p => exact ihObs _ _ _ _ _ _ _ h
      all_goals
        (simp only [Option.some.injEq, Prod.mk.injEq] at h;
         obtain ⟨-, h2, -⟩ := h; subst h2; exact statePres_rfl st)
    · -- proxySet
      intro env st p k v st' evs b h
      rw [proxySet] at h
      split at h
      · exact absurd h (by simp)
      case _ pd heqP =>
        split at h
        · exact absurd h (by simp)
        case _ o0 heq =>
          simp only [] at h
          split at h
          · exact absurd h (by simp)
          case _ v1 st1 evs1 heqM =>
            simp only [Option.some.injEq, Prod.mk.injEq] at h
            obtain ⟨h2, -, -⟩ := h
            subst h2
            exact statePres_trans (ihMay _ _ _ _ _ _ _ heqM)
              (statePres_reflectSet st1 pd.target k _)
    · -- wrapKeysRaw
      intro env st a keys opts st' evs h
      rw [wrapKeysRaw.eq_def] at h
      simp only [] at h
      split at h
      · simp only [Option.some.injEq, Prod.mk.injEq] at h
        obtain ⟨h2, -⟩ := h
        subst h2
        exact statePres_rfl st
      case _ k rest =>
        split at h
        · exact absurd h (by simp)
        case _ o heq =>
          split at h
          · exact absurd h (by simp)
          case _ w1 st1 evs1 heqM =>
            split at h
            · exact absurd h (by simp)
            case _ o1 heq1 =>
              split at h
              · exact absurd h (by simp)
              case _ st3 evs2 heqR =>
                simp only [Option.some.injEq, Prod.mk.injEq] at h
                obtain ⟨h2, -⟩ := h
                subst h2
                exact statePres_trans (ihMay _ _ _ _ _ _ _ heqM)
                  (statePres_trans
                    (statePres_setObj { o1 with fields := setField o1.fields k w1 }
                      heq1 (fun hh => hh))
                    (ihRaw _ _ _ _ _ _ _ heqR))
    · -- wrapKeysProxy
      intro env st p keys opts st' evs h
      rw [wrapKeysProxy.eq_def] at h
      simp only [] at h
      split at h
      · simp only [Option.some.injEq, Prod.mk.injEq] at h
        obtain ⟨h2, -⟩ := h
        subst h2
        exact statePres_rfl st
      case _ k rest =>
        split at h
        · exact absurd h (by simp)
        case _ vg evsG heqG =>
          split at h
          · exact absurd h (by simp)
          case _ w1 st1 evs1 heqM =>
            split at h
            · exact absurd h (by simp)
            case _ st2 evs2 ok heqS =>
              split at h
              · exact absurd h (by simp)
              case _ st3 evs3 heqR =>
                simp only [Option.some.injEq, Prod.mk.injEq] at h
                obtain ⟨h2, -⟩ := h
                subst h2
                exact statePres_trans (ihMay _ _ _ _ _ _ _ heqM)
                  (statePres_trans (ihSet _ _ _ _ _ _ _ _ heqS)
                    (ihProx _ _ _ _ _ _ _ heqR))

/-! ### Dispatch lemmas -/

/-- Kind tag of an event: 0 global before, 1 registry before, 2 commit,
3 registry after, 4 global after, 5 read hook. -/
def evKind : Event → Nat
  | Event.globalBefore _ _ _ _ => 0
  | Event.beforeReg _ _ _ _ => 1
  | Event.commitEv _ _ => 2
  | Event.afterReg _ _ _ _ => 3
  | Event.globalAfter _ _ _ _ => 4
  | Event.getHook _ _ _ => 5

/-- Callback identifier recorded in an event (0 for the commit event,
which has none). -/
def evCbId : Event → Nat
  | Event.globalBefore cb _ _ _ => cb
  | Event.beforeReg cb _ _ _ => cb
  | Event.commitEv _ _ => 0
  | Event.afterReg cb _ _ _ => cb
  | Event.globalAfter cb _ _ _ => cb
  | Event.getHook cb _ _ => cb

/-- Value handed to the registry loop: the incoming value after the
global before hook, whose return value replaces it unconditionally when
the hook is configured. -/
def hookVal (env : CbEnv) (opts : ObserveOptions) (p : Nat) (k : Key) (v vb : Value) :
    Value :=
  match opts.onBeforeSet with
  | some cb => env cb k v vb (Value.prox p)
  | none => v

/-- Trace contribution of the global before hook. -/
def hookBeforeEvs (opts : ObserveOptions) (k : Key) (v vb : Value) : List Event :=
  match opts.onBeforeSet with
  | some cb => [Event.globalBefore cb k v vb]
  | none => []

/-- Trace contribution of the global after hook. -/
def hookAfterEvs (opts : ObserveOptions) (k : Key) (v vb : Value) : List Event :=
  match opts.onSet with
  | some cb => [Event.globalAfter cb k v vb]
  | none => []

/-- The after-phase loop is exactly the after-phase sublist of the
registry, in insertion order, each invoked with the committed value. -/
theorem runAfter_eq_map (env : CbEnv) (regs : List Reg) (k : Key) (v vb recv : Value) :
    runAfter env regs k v vb recv =
      (regs.filter (fun r => r.phase = Phase.after)).map
        (fun r => Event.afterReg r.cb k v vb) := by
  induction regs with
  | nil => simp [runAfter]
  | cons r rest ih =>
    by_cases hp : r.phase = Phase.after
    · simp [runAfter, hp, ih, List.filter_cons]
    · simp [runAfter, hp, ih, List.filter_cons]

/-- The before-phase trace consists of before-registration events whose
callbacks are exactly the before-phase sublist of the registry, in
insertion order. -/
theorem runBefore_trace_cbs (env : CbEnv) (regs : List Reg) (k : Key) (vb recv : Value) :
    ∀ v, ((runBefore env regs k v vb recv).2.map evCbId =
      (regs.filter (fun r => r.phase = Phase.before)).map Reg.cb) ∧
      (∀ e ∈ (runBefore env regs k v vb recv).2, evKind e = 1) := by
  induction regs with
  | nil => intro v; simp [runBefore]
  | cons r rest ih =>
    intro v
    by_cases hp : r.phase = Phase.before
    · have := ih (env r.cb k v vb recv)
      refine ⟨?_, ?_⟩
      · simp [runBefore, hp, List.filter_cons, this.1, evCbId]
      · intro e he
        simp only [runBefore, if_pos hp, List.mem_cons] at he
        rcases he with he | he
        · subst he; rfl
        · exact this.2 e he
    · have := ih v
      refine ⟨?_, ?_⟩
      · simp [runBefore, hp, List.filter_cons, this.1]
      · intro e he
        simp only [runBefore, if_neg hp] at he
        exact this.2 e he

/-- Every before-phase registration is invoked: its event appears in the
before-phase trace with the old value it was handed. -/
theorem runBefore_mem (env : CbEnv) (regs : List Reg) (k : Key) (vb recv : Value)
    {r : Reg} (hr : r ∈ regs) (hp : r.phase = Phase.before) :
    ∀ v, ∃ vv, Event.beforeReg r.cb k vv vb ∈ (runBefore env regs k v vb recv).2 := by
  induction regs with
  | nil => cases hr
  | cons r0 rest ih =>
    intro v
    rcases List.mem_cons.mp hr with h0 | h0
    · subst h0
      exact ⟨v, by simp [runBefore, hp]⟩
    · by_cases hp0 : r0.phase = Phase.before
      · obtain ⟨vv, hm⟩ := ih h0 (env r0.cb k v vb recv)
        exact ⟨vv, by simp only [runBefore, if_pos hp0, List.mem_cons]; exact Or.inr hm⟩
      · obtain ⟨vv, hm⟩ := ih h0 v
        exact ⟨vv, by simp only [runBefore, if_neg hp0]; exact hm⟩

/-- The before-phase pipeline (value and trace) depends only on the
behaviour of the callbacks registered in before phase. -/
theorem runBefore_env_agree {env env' : CbEnv} (regs : List Reg) (k : Key)
    (vb recv : Value)
    (hag : ∀ r ∈ regs, r.phase = Phase.before → env r.cb = env' r.cb) :
    ∀ v, runBefore env regs k v vb recv = runBefore env' regs k v vb recv := by
  induction regs with
  | nil => intro v; rfl
  | cons r rest ih =>
    intro v
    have hag' : ∀ r ∈ rest, r.phase = Phase.before → env r.cb = env' r.cb :=
      fun r hr hpr => hag r (List.mem_cons_of_mem _ hr) hpr
    by_cases hp : r.phase = Phase.before
    · have he : env r.cb = env' r.cb := hag r (List.mem_cons_self r rest) hp
      simp only [runBefore, if_pos hp, he, ih hag']
    · simp only [runBefore, if_neg hp, ih hag']

/-- One-step characterization of the set trap on a non-composite
incoming value: old value captured from the target, then the global
before hook, the before-phase pipeline, the commit via `Reflect.set`,
the after-phase loop and the global after hook, in that order, always
reporting success. -/
theorem proxySet_spec (f : Nat) (env : CbEnv) (st : State) (p : Nat) (k : Key)
    (v : Value) (pd : ProxyData) (o : Obj)
    (hp : st.proxies[p]? = some pd) (ho : getObj st pd.target = some o)
    (hv : isComposite v = false) :
    proxySet (Nat.succ f) env st p k v =
      some (reflectSet st pd.target k
          (runBefore env (o.callbacks.getD []) k
            (hookVal env pd.opts p k v (getField o.fields k))
            (getField o.fields k) (Value.prox p)).1,
        hookBeforeEvs pd.opts k v (getField o.fields k) ++
          (runBefore env (o.callbacks.getD []) k
            (hookVal env pd.opts p k v (getField o.fields k))
            (getField o.fields k) (Value.prox p)).2 ++
          [Event.commitEv k
            ((runBefore env (o.callbacks.getD []) k
              (hookVal env pd.opts p k v (getField o.fields k))
              (getField o.fields k) (Value.prox p)).1)] ++
          runAfter env (o.callbacks.getD []) k
            ((runBefore env (o.callbacks.getD []) k
              (hookVal env pd.opts p k v (getField o.fields k))
              (getField o.fields k) (Value.prox p)).1)
            (getField o.fields k) (Value.prox p) ++
          hookAfterEvs pd.opts k
            ((runBefore env (o.callbacks.getD []) k
              (hookVal env pd.opts p k v (getField o.fields k))
              (getField o.fields k) (Value.prox p)).1)
            (getField o.fields k),
        true) := by
  rw [proxySet, hp]
  simp only []
  rw [ho]
  simp only []
  rw [mayObserve_prim f env st pd.opts hv]
  simp only [ho]
  cases hb : pd.opts.onBeforeSet <;> cases ha : pd.opts.onSet <;>
    simp [hookVal, hookBeforeEvs, hookAfterEvs, hb, ha]

/-! ### Further state lemmas -/

theorem getField_setField_self (fs : List (Key × Value)) (k : Key) (v : Value) :
    getField (setField fs k v) k = v := by
  induction fs with
  | nil => simp [setField, getField]
  | cons kv rest ih =>
    obtain ⟨k', v'⟩ := kv
    by_cases hk : k' = k
    · simp [setField, getField, hk]
    · simp [setField, getField, hk, ih]

theorem storedAt_reflectSet {st : State} {a : Nat} {o : Obj} (k : Key) (v : Value)
    (h : getObj st a = some o) :
    storedAt (reflectSet st a k v) a k = v := by
  unfold reflectSet
  rw [h]
  unfold storedAt
  rw [getObj_setObj_self _ h]
  exact getField_setField_self o.fields k v

theorem proxies_setObj (st : State) (a : Nat) (o : Obj) :
    (setObj st a o).proxies = st.proxies := rfl

theorem proxies_initCallbackArray (st : State) (a : Nat) :
    (initCallbackArray st a).proxies = st.proxies := by
  unfold initCallbackArray
  split
  · rfl
  · split <;> rfl

theorem proxies_markObserved (st : State) (a : Nat) :
    (markObserved st a).proxies = st.proxies := by
  unfold markObserved
  split <;> rfl

theorem resolveAddr_eq_of_proxies {st st' : State} (h : st'.proxies = st.proxies)
    (v : Value) : resolveAddr st' v = resolveAddr st v := by
  cases v <;> simp [resolveAddr, h]

theorem getObj_initCallbackArray {st : State} {a : Nat} {o : Obj}
    (h : getObj st a = some o) :
    getObj (initCallbackArray st a) a =
      some { o with callbacks := some (o.callbacks.getD []) } := by
  obtain ⟨fs, fl, cbs⟩ := o
  unfold initCallbackArray
  rw [h]
  cases cbs
  · exact getObj_setObj_self _ h
  · simpa using h

/-! ### Claim C7 -/

/-- C7: `offSet` branch semantics — with no callback it clears the whole
registry unconditionally (whatever its previous contents, empty or
absent); with a callable callback but no recognizable registry on the
node it fails with the not-registered error; otherwise it removes every
registration whose callback identity matches, regardless of phase,
keeping all the other registrations in their relative order (filter). -/
theorem c7_offSet_branch_semantics (st : State) (v : Value) (a : Nat) (o : Obj)
    (c : Nat) (hra : resolveAddr st v = some a) (ho : getObj st a = some o) :
    (offSet st v none = Except.ok (setObj st a { o with callbacks := some [] })) ∧
    (o.callbacks = none →
      offSet st v (some (Value.fn c)) = Except.error "callback is not registered") ∧
    (∀ regs, o.callbacks = some regs →
      offSet st v (some (Value.fn c)) =
        Except.ok (setObj st a
          { o with callbacks := some (regs.filter (fun r => r.cb ≠ c)) })) := by
  refine ⟨?_, ?_, ?_⟩
  · simp [offSet, hra, ho]
  · intro hcb
    simp [offSet, hra, ho, hcb]
  · intro regs hcb
    simp [offSet, hra, ho, hcb]

/-- Registry used by the C7 witness: the callback 5 registered in both
phases and the callback 6 in after phase. -/
def regsC7 : List Reg := [⟨5, Phase.before⟩, ⟨6, Phase.after⟩, ⟨5, Phase.after⟩]

def oC7 : Obj := ⟨[], false, some regsC7⟩

def stC7 : State := { objs := [oC7], proxies := [] }

theorem c7_offSet_branch_semantics_witness :
    offSet stC7 (Value.ref 0) (some (Value.fn 5)) =
      Except.ok (setObj stC7 0
        { oC7 with callbacks := some (regsC7.filter (fun r => r.cb ≠ 5)) }) :=
  (c7_offSet_branch_semantics stC7 (Value.ref 0) 0 oC7 5 rfl rfl).2.2 regsC7 rfl

/-! ### Claim C8 -/

/-- C8: `onSet` — a non-callable callback fails with the
invalid-argument error (the thrown error produces no new state, so the
registry is untouched); a callable callback is appended as a fresh
`{cb, phase}` registration at the end of the registry (created empty
when absent), preserving insertion order and without deduplication (the
append happens for every call, so the same callback can occur in
several entries); calling without the phase argument registers in after
phase, the declared parameter default. -/
theorem c8_onSet_register (st : State) (v w : Value) (c : Nat) (ph : Phase) (a : Nat)
    (hra : resolveAddr st v = some a) (ho : (getObj st a).isSome = true) :
    (isFn w = false → onSet st v w ph = Except.error "callback must be a function") ∧
    (∃ st', onSet st v (Value.fn c) ph = Except.ok st' ∧
      getObservers st' v = some ((getObservers st v).getD [] ++ [⟨c, ph⟩])) ∧
    onSetDefaultPhase st v (Value.fn c) = onSet st v (Value.fn c) Phase.after := by
  obtain ⟨o, hobj⟩ := Option.isSome_iff_exists.mp ho
  refine ⟨?_, ?_, rfl⟩
  · intro hw
    cases w <;> simp_all [isFn, onSet]
  · have hinit := getObj_initCallbackArray hobj
    refine ⟨setObj (initCallbackArray st a) a
      { o with callbacks := some (o.callbacks.getD [] ++ [⟨c, ph⟩]) }, ?_, ?_⟩
    · simp only [onSet, hra, hinit, Option.getD_some]
    · have hprox1 : (setObj (initCallbackArray st a) a
          { o with callbacks := some (o.callbacks.getD [] ++ [⟨c, ph⟩]) }).proxies
            = st.proxies := by
        rw [proxies_setObj, proxies_initCallbackArray]
      simp only [getObservers, resolveAddr_eq_of_proxies hprox1, hra,
        getObj_setObj_self { o with callbacks := some (o.callbacks.getD [] ++ [⟨c, ph⟩]) } hinit,
        hobj]

def stC8 : State := { objs := [⟨[], false, none⟩], proxies := [] }

theorem c8_onSet_register_witness :
    (isFn (Value.str "notfn") = false →
      onSet stC8 (Value.ref 0) (Value.str "notfn") Phase.before =
        Except.error "callback must be a function") ∧
    (∃ st', onSet stC8 (Value.ref 0) (Value.fn 7) Phase.before = Except.ok st' ∧
      getObservers st' (Value.ref 0) =
        some ((getObservers stC8 (Value.ref 0)).getD [] ++ [⟨7, Phase.before⟩])) ∧
    onSetDefaultPhase stC8 (Value.ref 0) (Value.fn 7) =
      onSet stC8 (Value.ref 0) (Value.fn 7) Phase.after :=
  c8_onSet_register stC8 (Value.ref 0) (Value.str "notfn") 7 Phase.before 0 rfl rfl

/-! ### Claim C9 -/

/-- C9: read interception is observational only — a read through the
wrapper returns exactly the value retrieved from the underlying target;
the global read hook, when configured, is invoked with the key and that
value, and nothing of the hook influences what the read returns (the
hook type returns void; the trap returns the retrieved value). -/
theorem c9_read_observational (st : State) (p : Nat) (k : Key) (pd : ProxyData)
    (o : Obj) (hp : st.proxies[p]? = some pd) (ho : getObj st pd.target = some o) :
    ∃ evs, proxyGet st p k = some (getField o.fields k, evs) ∧
      (pd.opts.onGet = none → evs = []) ∧
      (∀ cb, pd.opts.onGet = some cb →
        evs = [Event.getHook cb k (getField o.fields k)]) := by
  refine ⟨(match pd.opts.onGet with
    | some cb => [Event.getHook cb k (getField o.fields k)]
    | none => []), ?_, ?_, ?_⟩
  · simp only [proxyGet, hp, ho]
  · intro hg
    simp [hg]
  · intro cb hg
    simp [hg]

def stC9 : State :=
  { objs := [⟨[("x", Value.num 42)], true, some []⟩],
    proxies := [⟨0, { deep := true, onBeforeSet := none, onSet := none, onGet := some 9 }⟩] }

theorem c9_read_observational_witness :
    ∃ evs, proxyGet stC9 0 "x" = some (getField [("x", Value.num 42)] "x", evs) ∧
      ((⟨0, { deep := true, onBeforeSet := none, onSet := none, onGet := some 9 }⟩ :
          ProxyData).opts.onGet = none → evs = []) ∧
      (∀ cb, (⟨0, { deep := true, onBeforeSet := none, onSet := none, onGet := some 9 }⟩ :
          ProxyData).opts.onGet = some cb →
        evs = [Event.getHook cb "x" (getField [("x", Value.num 42)] "x")]) :=
  c9_read_observational stC9 0 "x" _ _ rfl rfl

/-! ### Claim C3 -/

/-- C3: fixed dispatch order on every write through a wrapper: with both
global hooks configured, the trace of a write is exactly the global
before hook first, then the before-phase registry entries in insertion
order, then the commit of the value onto the target, then the
after-phase registry entries in insertion order, and the global after
hook last. -/
theorem c3_dispatch_order (f : Nat) (env : CbEnv) (st : State) (p : Nat) (k : Key)
    (v : Value) (pd : ProxyData) (o : Obj) (g h : Nat) (regs : List Reg)
    (hp : st.proxies[p]? = some pd) (ho : getObj st pd.target = some o)
    (hv : isComposite v = false)
    (hg : pd.opts.onBeforeSet = some g) (hh : pd.opts.onSet = some h)
    (hregs : o.callbacks = some regs) :
    ∃ bEvs vfin st',
      proxySet (Nat.succ f) env st p k v =
        some (st',
          [Event.globalBefore g k v (getField o.fields k)] ++ bEvs ++
            [Event.commitEv k vfin] ++
            (regs.filter (fun r => r.phase = Phase.after)).map
              (fun r => Event.afterReg r.cb k vfin (getField o.fields k)) ++
            [Event.globalAfter h k vfin (getField o.fields k)],
          true) ∧
      (∀ e ∈ bEvs, evKind e = 1) ∧
      bEvs.map evCbId = (regs.filter (fun r => r.phase = Phase.before)).map Reg.cb := by
  have hs := proxySet_spec f env st p k v pd o hp ho hv
  refine ⟨(runBefore env regs k (env g k v (getField o.fields k) (Value.prox p))
      (getField o.fields k) (Value.prox p)).2,
    (runBefore env regs k (env g k v (getField o.fields k) (Value.prox p))
      (getField o.fields k) (Value.prox p)).1,
    reflectSet st pd.target k
      (runBefore env regs k (env g k v (getField o.fields k) (Value.prox p))
        (getField o.fields k) (Value.prox p)).1, ?_, ?_, ?_⟩
  · rw [hs]
    simp only [hg, hh, hregs, hookVal, hookBeforeEvs, hookAfterEvs, Option.getD_some,
      runAfter_eq_map, List.append_assoc, List.singleton_append, List.cons_append,
      List.nil_append]
  · exact (runBefore_trace_cbs env regs k (getField o.fields k) (Value.prox p) _).2
  · exact (runBefore_trace_cbs env regs k (getField o.fields k) (Value.prox p) _).1

/-- Callback environment used by the dispatch witnesses: callback 0 adds
one, callback 1 triples, everything else passes the value through. -/
def envC : CbEnv := fun c _ v _ _ =>
  match c, v with
  | 0, Value.num n => Value.num (n + 1)
  | 1, Value.num n => Value.num (n * 3)
  | _, _ => v

def optsC3 : ObserveOptions :=
  { deep := true, onBeforeSet := some 0, onSet := some 1, onGet := none }

def regsC3 : List Reg := [⟨2, Phase.before⟩, ⟨3, Phase.after⟩]

def oC3 : Obj := ⟨[("t", Value.num 1)], true, some regsC3⟩

def stC3 : State := { objs := [oC3], proxies := [⟨0, optsC3⟩] }

theorem c3_dispatch_order_witness :
    ∃ bEvs vfin st',
      proxySet (Nat.succ 3) envC stC3 0 "t" (Value.num 5) =
        some (st',
          [Event.globalBefore 0 "t" (Value.num 5) (getField oC3.fields "t")] ++ bEvs ++
            [Event.commitEv "t" vfin] ++
            (regsC3.filter (fun r => r.phase = Phase.after)).map
              (fun r => Event.afterReg r.cb "t" vfin (getField oC3.fields "t")) ++
            [Event.globalAfter 1 "t" vfin (getField oC3.fields "t")],
          true) ∧
      (∀ e ∈ bEvs, evKind e = 1) ∧
      bEvs.map evCbId = (regsC3.filter (fun r => r.phase = Phase.before)).map Reg.cb :=
  c3_dispatch_order 3 envC stC3 0 "t" (Value.num 5) ⟨0, optsC3⟩ oC3 0 1 regsC3
    rfl rfl rfl rfl rfl rfl

/-! ### Claim C4 -/

/-- C4: before-phase pipeline: the global before hook return replaces
the pending value unconditionally (whatever it is, including undefined,
since the statement is universal in the callback environment), and each
before-phase registration, running in registration order, receives as
its value argument the value produced by the previous one; the pipeline
output is the committed value. -/
theorem c4_before_pipeline (f : Nat) (env : CbEnv) (st : State) (p : Nat) (k : Key)
    (v : Value) (pd : ProxyData) (o : Obj) (g c1 c2 : Nat)
    (hp : st.proxies[p]? = some pd) (ho : getObj st pd.target = some o)
    (hv : isComposite v = false)
    (hg : pd.opts.onBeforeSet = some g) (hh : pd.opts.onSet = none)
    (hregs : o.callbacks = some [⟨c1, Phase.before⟩, ⟨c2, Phase.before⟩]) :
    ∃ st',
      proxySet (Nat.succ f) env st p k v =
        some (st',
          [Event.globalBefore g k v (getField o.fields k),
           Event.beforeReg c1 k
             (env g k v (getField o.fields k) (Value.prox p)) (getField o.fields k),
           Event.beforeReg c2 k
             (env c1 k (env g k v (getField o.fields k) (Value.prox p))
               (getField o.fields k) (Value.prox p)) (getField o.fields k),
           Event.commitEv k
             (env c2 k (env c1 k (env g k v (getField o.fields k) (Value.prox p))
               (getField o.fields k) (Value.prox p)) (getField o.fields k) (Value.prox p))],
          true) ∧
      storedAt st' pd.target k =
        env c2 k (env c1 k (env g k v (getField o.fields k) (Value.prox p))
          (getField o.fields k) (Value.prox p)) (getField o.fields k) (Value.prox p) := by
  have hs := proxySet_spec f env st p k v pd o hp ho hv
  refine ⟨_, ?_, storedAt_reflectSet k _ ho⟩
  rw [hs]
  simp [hg, hh, hregs, hookVal, hookBeforeEvs, hookAfterEvs,
    runBefore, runAfter]

def optsC4 : ObserveOptions :=
  { deep := true, onBeforeSet := some 0, onSet := none, onGet := none }

def oC4 : Obj := ⟨[("t", Value.num 1)], true, some [⟨1, Phase.before⟩, ⟨4, Phase.before⟩]⟩

def stC4 : State := { objs := [oC4], proxies := [⟨0, optsC4⟩] }

theorem c4_before_pipeline_witness :
    ∃ st',
      proxySet (Nat.succ 3) envC stC4 0 "t" (Value.num 5) =
        some (st',
          [Event.globalBefore 0 "t" (Value.num 5) (getField oC4.fields "t"),
           Event.beforeReg 1 "t"
             (envC 0 "t" (Value.num 5) (getField oC4.fields "t") (Value.prox 0))
             (getField oC4.fields "t"),
           Event.beforeReg 4 "t"
             (envC 1 "t" (envC 0 "t" (Value.num 5) (getField oC4.fields "t") (Value.prox 0))
               (getField oC4.fields "t") (Value.prox 0)) (getField oC4.fields "t"),
           Event.commitEv "t"
             (envC 4 "t" (envC 1 "t" (envC 0 "t" (Value.num 5) (getField oC4.fields "t")
                 (Value.prox 0))
               (getField oC4.fields "t") (Value.prox 0)) (getField oC4.fields "t")
               (Value.prox 0))],
          true) ∧
      storedAt st' 0 "t" =
        envC 4 "t" (envC 1 "t" (envC 0 "t" (Value.num 5) (getField oC4.fields "t")
            (Value.prox 0))
          (getField oC4.fields "t") (Value.prox 0)) (getField oC4.fields "t")
          (Value.prox 0) :=
  c4_before_pipeline 3 envC stC4 0 "t" (Value.num 5) ⟨0, optsC4⟩ oC4 0 1 4
    rfl rfl rfl rfl rfl rfl

/-! ### Claim C5 -/

/-- C5: phase isolation: the after-phase registrations and the global
after hook fire strictly after the commit event in the trace, and the
stored value is fixed at commit time; replacing the behaviour of every
callback except those registered in before phase and the global before
hook (so in particular replacing the return values of all after-phase
callbacks and of the global after hook) yields the identical final
state, so no after-phase return value ever affects the stored value. -/
theorem c5_phase_isolation (f : Nat) (env env' : CbEnv) (st : State) (p : Nat)
    (k : Key) (v : Value) (pd : ProxyData) (o : Obj)
    (hp : st.proxies[p]? = some pd) (ho : getObj st pd.target = some o)
    (hv : isComposite v = false)
    (hag : ∀ r ∈ o.callbacks.getD [], r.phase = Phase.before → env r.cb = env' r.cb)
    (hgb : ∀ g, pd.opts.onBeforeSet = some g → env g = env' g) :
    ∃ st' preEvs vfin,
      proxySet (Nat.succ f) env st p k v =
        some (st', preEvs ++ [Event.commitEv k vfin] ++
          runAfter env (o.callbacks.getD []) k vfin (getField o.fields k) (Value.prox p) ++
          hookAfterEvs pd.opts k vfin (getField o.fields k), true) ∧
      storedAt st' pd.target k = vfin ∧
      (∃ evs', proxySet (Nat.succ f) env' st p k v = some (st', evs', true)) := by
  have hs := proxySet_spec f env st p k v pd o hp ho hv
  have hs' := proxySet_spec f env' st p k v pd o hp ho hv
  have hhook : hookVal env pd.opts p k v (getField o.fields k)
      = hookVal env' pd.opts p k v (getField o.fields k) := by
    cases hb : pd.opts.onBeforeSet with
    | none => simp [hookVal, hb]
    | some g => simp [hookVal, hb, hgb g hb]
  have hrb : runBefore env (o.callbacks.getD []) k
      (hookVal env pd.opts p k v (getField o.fields k))
      (getField o.fields k) (Value.prox p)
      = runBefore env' (o.callbacks.getD []) k
        (hookVal env' pd.opts p k v (getField o.fields k))
        (getField o.fields k) (Value.prox p) := by
    rw [hhook]
    exact runBefore_env_agree (o.callbacks.getD []) k (getField o.fields k)
      (Value.prox p) hag _
  refine ⟨reflectSet st pd.target k
      (runBefore env (o.callbacks.getD []) k
        (hookVal env pd.opts p k v (getField o.fields k))
        (getField o.fields k) (Value.prox p)).1,
    hookBeforeEvs pd.opts k v (getField o.fields k) ++
      (runBefore env (o.callbacks.getD []) k
        (hookVal env pd.opts p k v (getField o.fields k))
        (getField o.fields k) (Value.prox p)).2,
    (runBefore env (o.callbacks.getD []) k
      (hookVal env pd.opts p k v (getField o.fields k))
      (getField o.fields k) (Value.prox p)).1, ?_, ?_, ?_⟩
  · rw [hs]
  · exact storedAt_reflectSet k _ ho
  · rw [← hrb] at hs'
    exact ⟨_, hs'⟩

/-- Environment for the C5 witness that replaces the after-phase
callback 3 with one returning a junk string; everything else behaves as
in `envC`. -/
def envC5 : CbEnv := fun c =>
  if c = 3 then (fun _ _ _ _ => Value.str "junk") else envC c

def optsC5 : ObserveOptions :=
  { deep := true, onBeforeSet := none, onSet := some 1, onGet := none }

def oC5 : Obj := ⟨[("t", Value.num 1)], true, some [⟨3, Phase.after⟩]⟩

def stC5 : State := { objs := [oC5], proxies := [⟨0, optsC5⟩] }

theorem c5_phase_isolation_witness :
    ∃ st' preEvs vfin,
      proxySet (Nat.succ 3) envC stC5 0 "t" (Value.num 5) =
        some (st', preEvs ++ [Event.commitEv "t" vfin] ++
          runAfter envC (oC5.callbacks.getD []) "t" vfin (getField oC5.fields "t")
            (Value.prox 0) ++
          hookAfterEvs optsC5 "t" vfin (getField oC5.fields "t"), true) ∧
      storedAt st' 0 "t" = vfin ∧
      (∃ evs', proxySet (Nat.succ 3) envC5 stC5 0 "t" (Value.num 5) =
        some (st', evs', true)) :=
  c5_phase_isolation 3 envC envC5 stC5 0 "t" (Value.num 5) ⟨0, optsC5⟩ oC5 rfl rfl rfl
    (by
      intro r hr hpr
      rcases List.mem_cons.mp hr with h | h
      · subst h
        cases hpr
      · cases h)
    (by
      intro g hg
      cases hg)

/-! ### Claim C6 -/

/-- C6: transparency and no veto: writing the current value of the key
back through the wrapper (new value equal to old value) still runs the
full hook sequence — commit event, every before-phase and after-phase
registration, and both global hooks when configured, all appear in the
trace — and the trap reports success, universally in the callback
environment, so no hook behaviour can block the assignment. -/
theorem c6_transparency_no_veto (f : Nat) (env : CbEnv) (st : State) (p : Nat)
    (k : Key) (pd : ProxyData) (o : Obj)
    (hp : st.proxies[p]? = some pd) (ho : getObj st pd.target = some o)
    (hv : isComposite (getField o.fields k) = false) :
    ∃ st' evs,
      proxySet (Nat.succ f) env st p k (getField o.fields k) = some (st', evs, true) ∧
      (∃ vc, Event.commitEv k vc ∈ evs) ∧
      (∀ r ∈ o.callbacks.getD [], r.phase = Phase.before →
        ∃ vv, Event.beforeReg r.cb k vv (getField o.fields k) ∈ evs) ∧
      (∀ r ∈ o.callbacks.getD [], r.phase = Phase.after →
        ∃ vv, Event.afterReg r.cb k vv (getField o.fields k) ∈ evs) ∧
      (∀ cb, pd.opts.onBeforeSet = some cb →
        ∃ vv, Event.globalBefore cb k vv (getField o.fields k) ∈ evs) ∧
      (∀ cb, pd.opts.onSet = some cb →
        ∃ vv, Event.globalAfter cb k vv (getField o.fields k) ∈ evs) := by
  have hs := proxySet_spec f env st p k (getField o.fields k) pd o hp ho hv
  refine ⟨_, _, hs, ?_, ?_, ?_, ?_, ?_⟩
  · refine ⟨(runBefore env (o.callbacks.getD []) k
      (hookVal env pd.opts p k (getField o.fields k) (getField o.fields k))
      (getField o.fields k) (Value.prox p)).1, ?_⟩
    simp [List.mem_append]
  · intro r hr hpr
    obtain ⟨vv, hm⟩ := runBefore_mem env (o.callbacks.getD []) k
      (getField o.fields k) (Value.prox p) hr hpr
      (hookVal env pd.opts p k (getField o.fields k) (getField o.fields k))
    exact ⟨vv, by simp only [List.mem_append]; tauto⟩
  · intro r hr hpr
    refine ⟨(runBefore env (o.callbacks.getD []) k
      (hookVal env pd.opts p k (getField o.fields k) (getField o.fields k))
      (getField o.fields k) (Value.prox p)).1, ?_⟩
    have hmem : Event.afterReg r.cb k
        ((runBefore env (o.callbacks.getD []) k
          (hookVal env pd.opts p k (getField o.fields k) (getField o.fields k))
          (getField o.fields k) (Value.prox p)).1) (getField o.fields k)
        ∈ runAfter env (o.callbacks.getD []) k
          ((runBefore env (o.callbacks.getD []) k
            (hookVal env pd.opts p k (getField o.fields k) (getField o.fields k))
            (getField o.fields k) (Value.prox p)).1)
          (getField o.fields k) (Value.prox p) := by
      rw [runAfter_eq_map]
      exact List.mem_map_of_mem _ (List.mem_filter.mpr ⟨hr, by simp [hpr]⟩)
    simp only [List.mem_append]
    tauto
  · intro cb hcb
    exact ⟨getField o.fields k, by simp [hookBeforeEvs, hcb, List.mem_append]⟩
  · intro cb hcb
    refine ⟨(runBefore env (o.callbacks.getD []) k
      (hookVal env pd.opts p k (getField o.fields k) (getField o.fields k))
      (getField o.fields k) (Value.prox p)).1, ?_⟩
    simp [hookAfterEvs, hcb, List.mem_append]

def oC6 : Obj := ⟨[("t", Value.num 1)], true, some [⟨2, Phase.before⟩, ⟨3, Phase.after⟩]⟩

def stC6 : State := { objs := [oC6], proxies := [⟨0, optsC3⟩] }

theorem c6_transparency_no_veto_witness :
    ∃ st' evs,
      proxySet (Nat.succ 3) envC stC6 0 "t" (getField oC6.fields "t") =
        some (st', evs, true) ∧
      (∃ vc, Event.commitEv "t" vc ∈ evs) ∧
      (∀ r ∈ oC6.callbacks.getD [], r.phase = Phase.before →
        ∃ vv, Event.beforeReg r.cb "t" vv (getField oC6.fields "t") ∈ evs) ∧
      (∀ r ∈ oC6.callbacks.getD [], r.phase = Phase.after →
        ∃ vv, Event.afterReg r.cb "t" vv (getField oC6.fields "t") ∈ evs) ∧
      (∀ cb, optsC3.onBeforeSet = some cb →
        ∃ vv, Event.globalBefore cb "t" vv (getField oC6.fields "t") ∈ evs) ∧
      (∀ cb, optsC3.onSet = some cb →
        ∃ vv, Event.globalAfter cb "t" vv (getField oC6.fields "t") ∈ evs) :=
  c6_transparency_no_veto 3 envC stC6 0 "t" ⟨0, optsC3⟩ oC6 rfl rfl rfl

/-! ### Claim C1 -/

/-- Shape of a successful wrap result: either a proxy, or the argument
reference itself, which then carries the marker flag in the result
state (only the already-observed check returns a bare reference). -/
theorem observed_result_shape {f : Nat} {env : CbEnv} {st : State} {v : Value}
    {opts : ObserveOptions} {w : Value} {st1 : State} {evs : List Event}
    (h : observed f env st v opts = some (w, st1, evs)) :
    (∃ p, w = Value.prox p) ∨ (∃ a, w = Value.ref a ∧ flagAt st1 a = true) := by
  cases f with
  | zero => simp [observed] at h
  | succ f =>
    cases v
    case ref a =>
      rw [observed] at h
      split at h
      · exact absurd h (by simp)
      case _ o0 heq =>
        simp only [] at h
        split at h
        · exact absurd h (by simp)
        case _ st2 evs2 heqW =>
          split at h
          case isTrue hobs =>
            simp only [Option.some.injEq, Prod.mk.injEq] at h
            obtain ⟨hw, h2, -⟩ := h
            subst h2
            refine Or.inr ⟨a, hw.symm, ?_⟩
            rw [← isObserved_ref]
            exact hobs
          case isFalse =>
            simp only [Option.some.injEq, Prod.mk.injEq] at h
            obtain ⟨hw, -, -⟩ := h
            exact Or.inl ⟨_, hw.symm⟩
    case prox p =>
      rw [observed] at h
      split at h
      · exact absurd h (by simp)
      case _ pd heqP =>
        split at h
        · exact absurd h (by simp)
        case _ o0 heq =>
          simp only [] at h
          split at h
          · exact absurd h (by simp)
          case _ st2 evs2 heqW =>
            split at h
            · simp only [Option.some.injEq, Prod.mk.injEq] at h
              exact Or.inl ⟨p, h.1.symm⟩
            · exact absurd h (by simp)
    all_goals simp [observed] at h

/-- A successful wrap of a proxy returns that proxy itself. -/
theorem observed_prox_id {f : Nat} {env : CbEnv} {st : State} {p : Nat}
    {opts : ObserveOptions} {w : Value} {st1 : State} {evs : List Event}
    (h : observed f env st (Value.prox p) opts = some (w, st1, evs)) :
    w = Value.prox p := by
  cases f with
  | zero => simp [observed] at h
  | succ f =>
    rw [observed] at h
    split at h
    · exact absurd h (by simp)
    case _ pd heqP =>
      split at h
      · exact absurd h (by simp)
      case _ o0 heq =>
        simp only [] at h
        split at h
        · exact absurd h (by simp)
        case _ st2 evs2 heqW =>
          split at h
          · simp only [Option.some.injEq, Prod.mk.injEq] at h
            exact h.1.symm
          · exact absurd h (by simp)

/-- A successful wrap of a reference that already carries the marker
flag returns that reference itself: the flag survives the key loop
because no operation of the group clears a flag, so the
already-observed check fires. -/
theorem observed_ref_marked {f : Nat} {env : CbEnv} {st : State} {a : Nat}
    {opts : ObserveOptions} {w : Value} {st1 : State} {evs : List Event}
    (hflag : flagAt st a = true)
    (h : observed f env st (Value.ref a) opts = some (w, st1, evs)) :
    w = Value.ref a := by
  cases f with
  | zero => simp [observed] at h
  | succ f =>
    rw [observed] at h
    split at h
    · exact absurd h (by simp)
    case _ o0 heq =>
      simp only [] at h
      split at h
      · exact absurd h (by simp)
      case _ st2 evs2 heqW =>
        have h1 : flagAt (initCallbackArray st a) a = true :=
          (statePres_initCallbackArray st a).2 a hflag
        have h2 : flagAt st2 a = true :=
          ((statePres_run f).2.2.2.1 _ _ _ _ _ _ _ heqW).2 a h1
        split at h
        · simp only [Option.some.injEq, Prod.mk.injEq] at h
          exact h.1.symm
        case isFalse hn =>
          exact absurd (by rw [isObserved_ref]; exact h2) hn

/-- C1: idempotent wrap with identity: whenever a wrap call succeeds and
a second wrap call on its result succeeds, the second call returns the
very same wrapper value — the identical proxy, or the identical marked
reference — so repeated wrapping never produces a second wrapper for
the node. -/
theorem c1_idempotent_wrap (f f2 : Nat) (env : CbEnv) (st : State) (v : Value)
    (opts opts2 : ObserveOptions) (w w2 : Value) (st1 st2 : State)
    (e1 e2 : List Event)
    (h1 : observed f env st v opts = some (w, st1, e1))
    (h2 : observed f2 env st1 w opts2 = some (w2, st2, e2)) :
    w2 = w := by
  rcases observed_result_shape h1 with ⟨p, rfl⟩ | ⟨a, rfl, hflag⟩
  · exact observed_prox_id h2
  · exact observed_ref_marked hflag h2

/-- Identity environment used by several witnesses. -/
def envW : CbEnv := fun _ _ v _ _ => v

def stW : State := { objs := [⟨[("x", Value.num 1)], false, none⟩], proxies := [] }

def stW1 : State :=
  { objs := [⟨[("x", Value.num 1)], true, some []⟩], proxies := [⟨0, defaultOptions⟩] }

theorem c1_idempotent_wrap_witness :
    observed 3 envW stW (Value.ref 0) defaultOptions =
      some (Value.prox 0, stW1, []) ∧
    observed 6 envW stW1 (Value.prox 0) defaultOptions =
      some (Value.prox 0, stW1, [Event.commitEv "x" (Value.num 1)]) ∧
    (Value.prox 0 : Value) = Value.prox 0 :=
  ⟨rfl, rfl,
    c1_idempotent_wrap 3 6 envW stW (Value.ref 0) defaultOptions defaultOptions
      (Value.prox 0) (Value.prox 0) stW1 stW1 []
      [Event.commitEv "x" (Value.num 1)] rfl rfl⟩

/-! ### Claim C10 -/

/-- C10: wrapping marks the raw underlying object, not only the
returned wrapper: when `observed` on a plain reference returns a proxy,
the marker flag has been defined on the underlying object itself, so
`isObserved` is true of the raw reference (whose direct, untrapped
mutations bypass all interception — in the model a raw field store
dispatches nothing), and the new proxy has that raw object as target
together with the options of this call. -/
theorem c10_marker_on_target (f : Nat) (env : CbEnv) (st : State) (a pid : Nat)
    (opts : ObserveOptions) (st' : State) (evs : List Event)
    (h : observed f env st (Value.ref a) opts = some (Value.prox pid, st', evs)) :
    isObserved st' (Value.ref a) = true ∧ st'.proxies[pid]? = some ⟨a, opts⟩ := by
  cases f with
  | zero => simp [observed] at h
  | succ f =>
    rw [observed] at h
    split at h
    · exact absurd h (by simp)
    case _ o0 heq =>
      simp only [] at h
      split at h
      · exact absurd h (by simp)
      case _ st2 evs2 heqW =>
        split at h
        · simp at h
        · simp only [Option.some.injEq, Prod.mk.injEq, Value.prox.injEq] at h
          obtain ⟨hpid, hst, -⟩ := h
          subst hst
          have hlen : st2.objs.length = st.objs.length :=
            (((statePres_run f).2.2.2.1 _ _ _ _ _ _ _ heqW).1).trans
              (statePres_initCallbackArray st a).1
          have hlt : a < st2.objs.length := by
            rw [hlen]
            exact getObj_lt heq
          obtain ⟨o2, ho2⟩ : ∃ o2, getObj st2 a = some o2 :=
            ⟨st2.objs[a], by simp [getObj, List.getElem?_eq_getElem hlt]⟩
          have ho3 : getObj { st2 with proxies := st2.proxies ++ [⟨a, opts⟩] } a =
              some o2 := ho2
          constructor
          · rw [isObserved_ref]
            unfold markObserved
            rw [ho3]
            unfold flagAt
            rw [getObj_setObj_self _ ho3]
          · rw [proxies_markObserved]
            subst hpid
            exact List.getElem?_concat_length st2.proxies ⟨a, opts⟩

def stC10 : State := { objs := [⟨[("x", Value.num 1)], false, none⟩], proxies := [] }

theorem c10_marker_on_target_witness :
    observed 3 envW stC10 (Value.ref 0) defaultOptions =
      some (Value.prox 0, stW1, []) ∧
    (isObserved stW1 (Value.ref 0) = true ∧
      stW1.proxies[0]? = some ⟨0, defaultOptions⟩) :=
  ⟨rfl, c10_marker_on_target 3 envW stC10 0 0 defaultOptions stW1 [] rfl⟩

/-! ### Claim C2 -/

def optsDeepOff : ObserveOptions :=
  { deep := false, onBeforeSet := none, onSet := none, onGet := none }

def stC2 : State :=
  { objs := [⟨[], false, none⟩, ⟨[("x", Value.num 1)], false, none⟩], proxies := [] }

/-- Root wrapped with deep observation explicitly disabled. -/
def stC2a : State :=
  { objs := [⟨[], true, some []⟩, ⟨[("x", Value.num 1)], false, none⟩],
    proxies := [⟨0, optsDeepOff⟩] }

/-- Final state of the C2 write: the composite written under key a was
stored as a fresh proxy (id 1) over the written object, whose own heap
cell got marked and wrapped, although deep was disabled for the
wrapper. -/
def stC2b : State :=
  { objs := [⟨[("a", Value.prox 1)], true, some []⟩,
             ⟨[("x", Value.num 1)], true, some []⟩],
    proxies := [⟨0, optsDeepOff⟩, ⟨1, optsDeepOff⟩] }

/-- C2 is refuted by the code: with depth propagation explicitly
disabled for the wrap call (deep false), a composite value written
through the wrapper is nevertheless wrapped before being stored — the
stored value is a proxy over the written object, not the raw object.
The set trap passes the options to `mayObserve` unconditionally and
neither ever reads the deep flag, so recursive wrapping is not gated by
the option, contradicting the option documentation in the source. -/
theorem c2_deep_flag_ignored :
    observed 3 envW stC2 (Value.ref 0) optsDeepOff = some (Value.prox 0, stC2a, []) ∧
    proxySet 5 envW stC2a 0 "a" (Value.ref 1) =
      some (stC2b, [Event.commitEv "a" (Value.prox 1)], true) ∧
    storedAt stC2b 0 "a" = Value.prox 1 ∧
    storedAt stC2b 0 "a" ≠ Value.ref 1 ∧
    isObserved stC2b (Value.ref 1) = true := by
  refine ⟨rfl, rfl, rfl, ?_, rfl⟩
  decide

end Observed
